import Mathlib

/-!
Shallow embedding of the img-dup configuration and pipeline front end
(src/config.rs and src/main.rs), together with models of the parts of the
processing pipeline (dispatcher / worker pool / collector / grouper) that the
specification describes but whose source module is not part of this tree.
Filesystem facts (current directory, directory existence, CPU count) are
passed in as explicit parameters.
-/

/-- Model of the pre-1.0 Rust `Path`: an absolute flag plus components.
`is_relative` and `join` mirror the methods used by `outfile_arg`. -/
structure FsPath where
  absolute : Bool
  comps : List String
  deriving DecidableEq

def FsPath.is_relative (p : FsPath) : Bool := !p.absolute

def FsPath.join (d p : FsPath) : FsPath :=
  if p.absolute then p else FsPath.mk d.absolute (d.comps ++ p.comps)

/-- `JsonSettings` from config.rs. -/
inductive JsonSettings where
  | NoJson
  | CompactJson
  | PrettyJson (spaces : Nat)
  deriving DecidableEq

/-- `JsonSettings::is_json`: `*self != JsonSettings::NoJson`. -/
def JsonSettings.is_json (j : JsonSettings) : Bool := decide (j ≠ JsonSettings.NoJson)

/-- `ProgramSettings` from config.rs.  The float `threshold` is modelled as a
rational number. -/
structure ProgramSettings where
  threads : Nat
  dir : FsPath
  recurse : Bool
  exts : List String
  hash_size : Nat
  threshold : ℚ
  fast : Bool
  outfile : Option FsPath
  dup_only : Bool
  limit : Nat
  json : JsonSettings
  gui : Bool
  deriving DecidableEq

/-- `HashSettings` from config.rs. -/
structure HashSettings where
  hash_size : Nat
  fast : Bool
  deriving DecidableEq

/-- `ProgramSettings::hash_settings`. -/
def ProgramSettings.hash_settings (s : ProgramSettings) : HashSettings :=
  HashSettings.mk s.hash_size s.fast

/-- `ProgramSettings::silent_stdout`: `self.outfile.is_none() && self.json.is_json()`. -/
def ProgramSettings.silent_stdout (s : ProgramSettings) : Bool :=
  s.outfile.isNone && s.json.is_json

/-- The two writers `get_output` in main.rs can return. -/
inductive OutputSink where
  | sink
  | stdout
  deriving DecidableEq

/-- `get_output` from main.rs: the sink writer when `silent_stdout`, else stdout. -/
def get_output (s : ProgramSettings) : OutputSink :=
  if s.silent_stdout then OutputSink.sink else OutputSink.stdout

/-- The one fatal error `parse_args` can raise: `dir_arg` exits when the
search directory does not exist (config.rs lines 185-194). -/
inductive ConfigError where
  | invalidDir
  deriving DecidableEq

/-- The command-line values as `parse_args` sees them after `value_t!`:
for each numeric option, `some v` is a successfully parsed value and `none`
means the argument was absent or failed to parse (both are collapsed by
`unwrap_or` in the source).  `json` distinguishes an absent flag (`none`)
from a present flag with an unparsable count (`some none`). -/
structure Args where
  threads : Option Nat
  dir : Option FsPath
  recursive : Bool
  hashSize : Option Nat
  threshold : Option ℚ
  fast : Bool
  exts : Option (List String)
  outfile : Option FsPath
  dupOnly : Bool
  limit : Option Nat
  json : Option (Option Nat)
  gui : Bool
  deriving DecidableEq

/-- The threshold computation of config.rs line 170:
`value_t!(..., f32).unwrap_or(3f32).abs() / 100f32`. -/
def thresholdOf (arg : Option ℚ) : ℚ := |arg.getD 3| / 100

/-- `JsonSettings::from_str` composed with the `value_t!` fallback of
config.rs line 180: a parsed count above zero gives pretty output, a parsed
zero gives compact output, anything else gives no JSON. -/
def jsonSettingsOfArg : Option (Option Nat) → JsonSettings
  | some (some k) => if k > 0 then JsonSettings.PrettyJson k else JsonSettings.CompactJson
  | some none => JsonSettings.NoJson
  | none => JsonSettings.NoJson

/-- `dir_arg` from config.rs: the argument or the current directory, with a
fatal error when it is not a directory.  `isDir` is the filesystem oracle. -/
def dir_arg (cwd : FsPath) (isDir : FsPath → Bool) (arg : Option FsPath) :
    Except ConfigError FsPath :=
  if isDir (arg.getD cwd) then Except.ok (arg.getD cwd)
  else Except.error ConfigError.invalidDir

/-- `outfile_arg` from config.rs lines 196-205. -/
def outfile_arg (arg : Option FsPath) (dir : FsPath) : Option FsPath :=
  arg.map (fun p => if p.is_relative then dir.join p else p)

/-- `parse_args` from config.rs lines 158-183.  `numCpus` stands for
`os::num_cpus()` and `cwd` for `os::get_cwd()`. -/
def parse_args (numCpus : Nat) (cwd : FsPath) (isDir : FsPath → Bool) (args : Args) :
    Except ConfigError ProgramSettings :=
  match dir_arg cwd isDir args.dir with
  | Except.error e => Except.error e
  | Except.ok dir =>
      Except.ok
        { threads := args.threads.getD numCpus
          dir := dir
          recurse := args.recursive
          exts := args.exts.getD ["jpeg", "jpg", "png"]
          hash_size := args.hashSize.getD 8
          threshold := thresholdOf args.threshold
          fast := args.fast
          outfile := outfile_arg args.outfile dir
          dup_only := args.dupOnly
          limit := args.limit.getD 0
          json := jsonSettingsOfArg args.json
          gui := args.gui }

/-- The truncation step of `run` (main.rs lines 82-85): when a positive
`limit` is set, `Vec::truncate` keeps the first `limit` discovered paths. -/
def limitPaths (s : ProgramSettings) (paths : List FsPath) : List FsPath :=
  if s.limit > 0 then paths.take s.limit else paths

/-- Modelled from the spec: the worker-pool sizing rule of section 4.2 (the
`processing` module is not part of this tree).  A `threads` value of zero is
interpreted as one worker per available hardware execution context. -/
def effectiveWorkers (numCpus threads : Nat) : Nat :=
  if threads = 0 then numCpus else threads

/-- The settings `parse_args` produces once the directory check passed. -/
def parsedSettings (numCpus : Nat) (cwd : FsPath) (args : Args) : ProgramSettings :=
  { threads := args.threads.getD numCpus
    dir := args.dir.getD cwd
    recurse := args.recursive
    exts := args.exts.getD ["jpeg", "jpg", "png"]
    hash_size := args.hashSize.getD 8
    threshold := thresholdOf args.threshold
    fast := args.fast
    outfile := outfile_arg args.outfile (args.dir.getD cwd)
    dup_only := args.dupOnly
    limit := args.limit.getD 0
    json := jsonSettingsOfArg args.json
    gui := args.gui }

/-- A sample absolute directory used by concrete instances. -/
def sampleDir : FsPath := FsPath.mk true ["home"]

/-- Command-line values giving hash size zero: the degenerate resolution the
spec says must be rejected. -/
def argsZeroRes : Args :=
  { threads := none
    dir := some sampleDir
    recursive := false
    hashSize := some 0
    threshold := none
    fast := false
    exts := none
    outfile := none
    dupOnly := false
    limit := none
    json := none
    gui := false }

/-- Command-line values with every option absent. -/
def argsDefault : Args :=
  { threads := none
    dir := some sampleDir
    recursive := false
    hashSize := none
    threshold := none
    fast := false
    exts := none
    outfile := none
    dupOnly := false
    limit := none
    json := none
    gui := false }

/-- Command-line values whose threshold parsed to the out-of-range number
minus five hundred. -/
def argsNegThreshold : Args :=
  { threads := none
    dir := some sampleDir
    recursive := false
    hashSize := none
    threshold := some (-500)
    fast := false
    exts := none
    outfile := none
    dupOnly := false
    limit := none
    json := none
    gui := false }

/-- Modelled from the spec: the result of one Fingerprint Provider call
(section 2) — a fingerprint (bit sequence) with image dimensions on success,
or an opaque error code on failure. -/
inductive HashResult where
  | success (fp : List Bool) (dims : Nat × Nat)
  | failure (err : Nat)
  deriving DecidableEq

/-- Modelled from the spec: an `Outcome` (section 3) — exactly one per
submitted path, `Success` or `Failure`, tagged with its path. -/
structure Outcome (P : Type) where
  path : P
  result : HashResult
  deriving DecidableEq

/-- Modelled from the spec: the canonical submission list — each discovery
index paired with the outcome the Fingerprint Provider produces for its
path under the run's fixed `HashSettings`. -/
def submissions {P : Type} (provider : HashSettings → P → HashResult)
    (hs : HashSettings) (paths : List P) : List (Nat × Outcome P) :=
  paths.enum.map (fun j => (j.1, Outcome.mk j.2 (provider hs j.2)))

/-- Modelled from the spec: the Dispatcher (section 4.1) hands each indexed
path to exactly one of the `w` workers; the schedule `a` (reduced modulo
`w`) chooses which, so every possible assignment of paths to workers is
covered by some `a`. -/
def dispatch {P : Type} (w : Nat) (a : Nat → Nat) (jobs : List (Nat × P)) :
    List (List (Nat × P)) :=
  (List.range w).map (fun k => jobs.filter (fun j => a j.1 % w == k))

/-- Modelled from the spec: one worker (section 4.2) maps each taken path to
an outcome via the Fingerprint Provider and submits it with its index. -/
def workerRun {P : Type} (provider : HashSettings → P → HashResult)
    (hs : HashSettings) (batch : List (Nat × P)) : List (Nat × Outcome P) :=
  batch.map (fun j => (j.1, Outcome.mk j.2 (provider hs j.2)))

/-- Modelled from the spec: the Collector's accumulated submissions after the
join barrier — every worker's output, in an order that depends on the
schedule. -/
def collect {P : Type} (provider : HashSettings → P → HashResult)
    (hs : HashSettings) (w : Nat) (a : Nat → Nat) (paths : List P) :
    List (Nat × Outcome P) :=
  ((dispatch w a paths.enum).map (workerRun provider hs)).flatten

/-- Modelled from the spec: `freeze` (section 4.3) — the frozen result set,
ordered by original discovery order: for each discovery index the outcome
recorded for it. -/
def freeze {P : Type} (n : Nat) (subs : List (Nat × Outcome P)) : List (Outcome P) :=
  (List.range n).filterMap (fun i => (subs.find? (fun s => s.1 == i)).map Prod.snd)

/-- Modelled from the spec: the whole processing pipeline
(`processing::process`): dispatch all discovered paths to `w` workers under
schedule `a`, collect the submissions, and freeze the result set. -/
def process {P : Type} (provider : HashSettings → P → HashResult)
    (hs : HashSettings) (w : Nat) (a : Nat → Nat) (paths : List P) :
    List (Outcome P) :=
  freeze paths.length (collect provider hs w a paths)

/-- Modelled from the spec: Hamming distance of two equal-width bit
sequences — the count of differing bit positions (section 4.4). -/
def hamming : List Bool → List Bool → Nat
  | x :: xs, y :: ys => (if x = y then 0 else 1) + hamming xs ys
  | _, _ => 0

/-- Modelled from the spec: the difference fraction — Hamming distance
normalized by the fingerprint width (section 4.4). -/
def diffFrac (a b : List Bool) : ℚ := (hamming a b : ℚ) / (a.length : ℚ)

/-- Insert into a list sorted by the strict comparison `lt`, after any
element it does not strictly precede (a stable insertion). -/
def insertOrd {α : Type} (lt : α → α → Bool) (x : α) : List α → List α
  | [] => [x]
  | y :: ys => if lt x y then x :: y :: ys else y :: insertOrd lt x ys

/-- Stable insertion sort by the strict comparison `lt`. -/
def sortOrd {α : Type} (lt : α → α → Bool) : List α → List α
  | [] => []
  | x :: xs => insertOrd lt x (sortOrd lt xs)

/-- Modelled from the spec: the Similarity Grouper's edge list for one
Success `x` (section 4.4): every other Success whose difference fraction
from `x` is within the threshold, recorded as `(other path, fraction)`,
ordered by ascending fraction with ties kept in discovery order. -/
def edgesFor {P : Type} [DecidableEq P] (thr : ℚ) (xs : List (P × List Bool))
    (x : P × List Bool) : List (P × ℚ) :=
  sortOrd (fun e f => decide (e.2 < f.2))
    ((xs.filter (fun y => decide (y.1 ≠ x.1 ∧ diffFrac x.2 y.2 ≤ thr))).map
      (fun y => (y.1, diffFrac x.2 y.2)))

/-- Modelled from the spec: the annotated result set — every Success of the
frozen result set enriched with its similarity edge list. -/
def annotate {P : Type} [DecidableEq P] (thr : ℚ) (xs : List (P × List Bool)) :
    List (P × List Bool × List (P × ℚ)) :=
  xs.map (fun x => (x.1, x.2, edgesFor thr xs x))

/-- Command-line values whose threads argument parsed to zero. -/
def argsThreads0 : Args :=
  { threads := some 0
    dir := some sampleDir
    recursive := false
    hashSize := none
    threshold := none
    fast := false
    exts := none
    outfile := none
    dupOnly := false
    limit := none
    json := none
    gui := false }

/-- Command-line values whose limit argument parsed to two. -/
def argsLimit2 : Args :=
  { threads := none
    dir := some sampleDir
    recursive := false
    hashSize := none
    threshold := none
    fast := false
    exts := none
    outfile := none
    dupOnly := false
    limit := some 2
    json := none
    gui := false }

/-- Three distinct sample relative paths. -/
def paths3 : List FsPath :=
  [FsPath.mk false ["a"], FsPath.mk false ["b"], FsPath.mk false ["c"]]

/-- A concrete Fingerprint Provider that fails on every path. -/
def failProvider {P : Type} : HashSettings → P → HashResult :=
  fun _ _ => HashResult.failure 0

/-- Two sample successes whose fingerprints differ in one of two bits. -/
def samplePairs : List (String × List Bool) :=
  [("a", [true, false]), ("b", [true, true])]

/-- Full characterization of `parse_args`, shared by several results. -/
theorem parse_args_char (numCpus : Nat) (cwd : FsPath) (isDir : FsPath → Bool)
    (args : Args) :
    (isDir (args.dir.getD cwd) = true →
      parse_args numCpus cwd isDir args = Except.ok (parsedSettings numCpus cwd args)) ∧
    (isDir (args.dir.getD cwd) = false →
      parse_args numCpus cwd isDir args = Except.error ConfigError.invalidDir) := by
  unfold parse_args dir_arg parsedSettings
  constructor
  · intro h
    rw [h]
    simp
  · intro h
    rw [h]
    simp

/-- Claim C3, counterexample: a configuration whose resolution (hash size)
parsed to zero is accepted by argument processing — the run is not rejected,
`parse_args` returns a settings value with `hash_size = 0`. -/
theorem config_zero_resolution_accepted :
    parse_args 4 sampleDir (fun _ => true) argsZeroRes =
      Except.ok
        { threads := 4
          dir := sampleDir
          recurse := false
          exts := ["jpeg", "jpg", "png"]
          hash_size := 0
          threshold := 3 / 100
          fast := false
          outfile := none
          dup_only := false
          limit := 0
          json := JsonSettings.NoJson
          gui := false } := by
  rfl

/-- Claim C3, amended: argument processing never validates `resolution`,
`threads` or `threshold`: whenever the search directory check passes,
`parse_args` succeeds, storing any parsed numeric values unchanged (absent or
unparsable ones fall back to their defaults); the only fatal pre-run
configuration error is an invalid search directory. -/
theorem config_numeric_settings_never_rejected (numCpus : Nat) (cwd : FsPath)
    (isDir : FsPath → Bool) (args : Args) :
    ((isDir (args.dir.getD cwd) = true →
      parse_args numCpus cwd isDir args = Except.ok (parsedSettings numCpus cwd args)) ∧
     (isDir (args.dir.getD cwd) = false →
      parse_args numCpus cwd isDir args = Except.error ConfigError.invalidDir)) ∧
    (parsedSettings numCpus cwd args).hash_size = args.hashSize.getD 8 ∧
    (parsedSettings numCpus cwd args).threads = args.threads.getD numCpus ∧
    (parsedSettings numCpus cwd args).threshold = thresholdOf args.threshold :=
  ⟨parse_args_char numCpus cwd isDir args, rfl, rfl, rfl⟩

/-- Claim C3, witness for the amended statement at a concrete input. -/
theorem config_numeric_settings_never_rejected_witness :
    parse_args 4 sampleDir (fun _ => true) argsDefault =
      Except.ok (parsedSettings 4 sampleDir argsDefault) :=
  (config_numeric_settings_never_rejected 4 sampleDir (fun _ => true) argsDefault).1.1 rfl

/-- Claim C4: a `threads` value of zero is interpreted by the worker pool as
one worker per available hardware execution context, not as zero workers. -/
theorem threads_zero_means_auto (numCpus : Nat) (s : ProgramSettings)
    (h0 : s.threads = 0) (hn : 1 ≤ numCpus) :
    effectiveWorkers numCpus s.threads = numCpus ∧
    1 ≤ effectiveWorkers numCpus s.threads := by
  rw [h0]
  exact ⟨by simp [effectiveWorkers], by simpa [effectiveWorkers] using hn⟩

/-- Claim C4, witness: settings parsed from a literal `--threads 0` argument
get four workers on a four-context machine. -/
theorem threads_zero_means_auto_witness :
    effectiveWorkers 4 (parsedSettings 4 sampleDir argsThreads0).threads = 4 ∧
    1 ≤ effectiveWorkers 4 (parsedSettings 4 sampleDir argsThreads0).threads :=
  threads_zero_means_auto 4 (parsedSettings 4 sampleDir argsThreads0) rfl (by decide)

/-- Claim C5: every numeric threshold value, also outside the expected
range, is accepted by argument parsing: parsing succeeds and stores the
magnitude of the percentage divided by one hundred, with no error. -/
theorem any_threshold_accepted (numCpus : Nat) (cwd : FsPath)
    (isDir : FsPath → Bool) (args : Args) (t : ℚ)
    (ht : args.threshold = some t) (hd : isDir (args.dir.getD cwd) = true) :
    parse_args numCpus cwd isDir args = Except.ok (parsedSettings numCpus cwd args) ∧
    (parsedSettings numCpus cwd args).threshold = |t| / 100 := by
  refine ⟨(parse_args_char numCpus cwd isDir args).1 hd, ?_⟩
  simp [parsedSettings, thresholdOf, ht]

/-- Claim C5, witness: the wildly out-of-range threshold argument minus five
hundred percent is accepted and stored as five. -/
theorem any_threshold_accepted_witness :
    parse_args 4 sampleDir (fun _ => true) argsNegThreshold =
      Except.ok (parsedSettings 4 sampleDir argsNegThreshold) ∧
    (parsedSettings 4 sampleDir argsNegThreshold).threshold = |(-500 : ℚ)| / 100 :=
  any_threshold_accepted 4 sampleDir (fun _ => true) argsNegThreshold (-500) rfl rfl

/-- Claim C8: a threshold argument that parsed to `t` is stored as the
absolute value of `t` divided by one hundred, and an absent or unparsable
threshold argument is stored as the default three percent. -/
theorem threshold_abs_percent (t : ℚ) :
    thresholdOf (some t) = |t| / 100 ∧ thresholdOf none = 3 / 100 :=
  ⟨by simp [thresholdOf], by norm_num [thresholdOf]⟩

/-- Claim C9: standard progress messages go to the sink exactly when no
output file is set and JSON output is requested. -/
theorem silent_stdout_sink_iff (s : ProgramSettings) :
    (s.silent_stdout = true ↔ (s.outfile = none ∧ s.json ≠ JsonSettings.NoJson)) ∧
    (get_output s = OutputSink.sink ↔ s.silent_stdout = true) := by
  constructor
  · simp [ProgramSettings.silent_stdout, JsonSettings.is_json,
      Option.isNone_iff_eq_none]
  · by_cases h : s.silent_stdout <;> simp [get_output, h]

/-- Claim C10: no outfile argument resolves to no output file; an outfile
argument resolves to the search directory joined with it when relative, and
to itself unchanged when absolute. -/
theorem outfile_arg_resolution (dir : FsPath) (p : FsPath) :
    outfile_arg none dir = none ∧
    outfile_arg (some p) dir = some (if p.absolute then p else dir.join p) := by
  refine ⟨rfl, ?_⟩
  by_cases h : p.absolute <;> simp [outfile_arg, FsPath.is_relative, h]

/-- The collected submissions are the canonical submission list, partitioned
into per-worker blocks by the schedule. -/
theorem collect_eq {P : Type} (provider : HashSettings → P → HashResult)
    (hs : HashSettings) (w : Nat) (a : Nat → Nat) (paths : List P) :
    collect provider hs w a paths =
      ((List.range w).map (fun k =>
        (submissions provider hs paths).filter (fun s => a s.1 % w == k))).flatten := by
  unfold collect dispatch workerRun submissions
  rw [List.map_map]
  refine congrArg List.flatten (List.map_congr_left fun k _ => ?_)
  rw [List.filter_map]
  rfl

/-- Membership in the collected submissions is membership in the canonical
submission list, for any worker count of at least one. -/
theorem mem_collect_iff {P : Type} (provider : HashSettings → P → HashResult)
    (hs : HashSettings) (w : Nat) (a : Nat → Nat) (paths : List P)
    (hw : 1 ≤ w) (x : Nat × Outcome P) :
    x ∈ collect provider hs w a paths ↔ x ∈ submissions provider hs paths := by
  rw [collect_eq]
  constructor
  · intro hx
    rcases List.mem_flatten.1 hx with ⟨l, hl, hxl⟩
    rcases List.mem_map.1 hl with ⟨k, _, rfl⟩
    exact (List.mem_filter.1 hxl).1
  · intro hx
    refine List.mem_flatten.2
      ⟨(submissions provider hs paths).filter (fun s => a s.1 % w == a x.1 % w), ?_, ?_⟩
    · exact List.mem_map.2 ⟨a x.1 % w, List.mem_range.2 (Nat.mod_lt _ hw), rfl⟩
    · exact List.mem_filter.2 ⟨hx, by simp⟩

/-- The submission keys are exactly the discovery indices, in order. -/
theorem submissions_map_fst {P : Type} (provider : HashSettings → P → HashResult)
    (hs : HashSettings) (paths : List P) :
    (submissions provider hs paths).map Prod.fst = List.range paths.length := by
  unfold submissions
  rw [List.map_map]
  have h : ((Prod.fst ∘ fun j : Nat × P => (j.1, Outcome.mk j.2 (provider hs j.2))) :
      Nat × P → Nat) = Prod.fst := by
    funext j
    rfl
  rw [h, List.enum_map_fst]

/-- Looking any canonical submission up in the collected submissions by its
discovery index recovers exactly that submission. -/
theorem find_collect_eq {P : Type} (provider : HashSettings → P → HashResult)
    (hs : HashSettings) (w : Nat) (a : Nat → Nat) (paths : List P)
    (hw : 1 ≤ w) (x : Nat × Outcome P) (hx : x ∈ submissions provider hs paths) :
    (collect provider hs w a paths).find? (fun s => s.1 == x.1) = some x := by
  have hnd : ((submissions provider hs paths).map Prod.fst).Nodup := by
    rw [submissions_map_fst]
    exact List.nodup_range _
  cases h : (collect provider hs w a paths).find? (fun s => s.1 == x.1) with
  | none =>
    exfalso
    have := List.find?_eq_none.1 h x ((mem_collect_iff provider hs w a paths hw x).2 hx)
    simp at this
  | some y =>
    have hy : y.1 = x.1 := by simpa using List.find?_some h
    have hymem : y ∈ submissions provider hs paths :=
      (mem_collect_iff provider hs w a paths hw y).1 (List.mem_of_find?_eq_some h)
    rw [List.inj_on_of_nodup_map hnd hymem hx hy]

/-- Reconstructing by index from any store that answers every lookup with the
canonical submission yields the canonical outcomes in discovery order. -/
theorem filterMap_find_range {β : Type} :
    ∀ (m : List (Nat × β)) (off : Nat) (big : List (Nat × β)),
      m.map Prod.fst = List.range' off m.length →
      (∀ x ∈ m, big.find? (fun s => s.1 == x.1) = some x) →
      (List.range' off m.length).filterMap
        (fun i => (big.find? (fun s => s.1 == i)).map Prod.snd) = m.map Prod.snd := by
  intro m
  induction m with
  | nil =>
    intro off big _ _
    rfl
  | cons x m ih =>
    intro off big hkeys hfind
    rw [List.length_cons, List.range'_succ] at hkeys ⊢
    simp only [List.map_cons, List.cons.injEq] at hkeys
    rcases hkeys with ⟨hx1, hkeys⟩
    have hx : big.find? (fun s => s.1 == off) = some x := by
      rw [← hx1]
      exact hfind x (List.mem_cons_self x m)
    simp only [List.filterMap_cons, hx, Option.map_some', List.map_cons]
    congr 1
    exact ih (off + 1) big hkeys (fun y hy => hfind y (List.mem_cons_of_mem x hy))

/-- The frozen result set of the modelled pipeline: one outcome per
discovered path, in discovery order, whatever the worker count and the
schedule. -/
theorem process_eq {P : Type} (provider : HashSettings → P → HashResult)
    (hs : HashSettings) (w : Nat) (a : Nat → Nat) (paths : List P) (hw : 1 ≤ w) :
    process provider hs w a paths =
      paths.map (fun p => Outcome.mk p (provider hs p)) := by
  unfold process freeze
  have hlen : (submissions provider hs paths).length = paths.length := by
    simp [submissions]
  have key := filterMap_find_range (submissions provider hs paths) 0
    (collect provider hs w a paths)
    (by rw [submissions_map_fst, hlen, List.range_eq_range'])
    (fun x hx => find_collect_eq provider hs w a paths hw x hx)
  rw [hlen] at key
  rw [List.range_eq_range', key]
  unfold submissions
  rw [List.map_map]
  have h : ((Prod.snd ∘ fun j : Nat × P => (j.1, Outcome.mk j.2 (provider hs j.2))) :
      Nat × P → Outcome P) =
      ((fun p => Outcome.mk p (provider hs p)) ∘ Prod.snd) := by
    funext j
    rfl
  rw [h, ← List.map_map, List.enum_map_snd]

/-- Claim C1: for every input path sequence and every worker count of at
least one, under every schedule, the frozen result set has exactly one
outcome per submitted path — as many entries as paths, the entry for each
discovery position carrying exactly that position's path, none lost, none
duplicated. -/
theorem process_one_outcome_per_path {P : Type}
    (provider : HashSettings → P → HashResult) (hs : HashSettings)
    (w : Nat) (a : Nat → Nat) (paths : List P) (hw : 1 ≤ w) :
    (process provider hs w a paths).length = paths.length ∧
    (process provider hs w a paths).map Outcome.path = paths := by
  rw [process_eq provider hs w a paths hw]
  refine ⟨by simp, ?_⟩
  rw [List.map_map]
  have h : (Outcome.path ∘ fun p : P => Outcome.mk p (provider hs p)) = id := rfl
  rw [h, List.map_id]

/-- Claim C1, witness: three paths, two workers, identity schedule. -/
theorem process_one_outcome_per_path_witness :
    (process failProvider (HashSettings.mk 8 false) 2 (fun i => i)
      (["a", "b", "c"] : List String)).length = (["a", "b", "c"] : List String).length ∧
    (process failProvider (HashSettings.mk 8 false) 2 (fun i => i)
      (["a", "b", "c"] : List String)).map Outcome.path = ["a", "b", "c"] :=
  process_one_outcome_per_path failProvider (HashSettings.mk 8 false) 2 (fun i => i)
    ["a", "b", "c"] (by decide)

/-- Claim C2: with a positive limit, the path list handed to the pipeline is
the first `min(n, limit)` discovered paths, truncated before any dispatch,
and none of the remaining discovered paths ever appears in the frozen result
set. -/
theorem limit_truncates_before_dispatch (s : ProgramSettings) (paths : List FsPath)
    (provider : HashSettings → FsPath → HashResult) (hs : HashSettings) (w : Nat)
    (a : Nat → Nat) (hl : 0 < s.limit) (hw : 1 ≤ w) (hnd : paths.Nodup) :
    limitPaths s paths = paths.take s.limit ∧
    (limitPaths s paths).length = min s.limit paths.length ∧
    (process provider hs w a (limitPaths s paths)).map Outcome.path =
      paths.take s.limit ∧
    ∀ p ∈ paths.drop s.limit,
      p ∉ (process provider hs w a (limitPaths s paths)).map Outcome.path := by
  have hLP : limitPaths s paths = paths.take s.limit := by
    simp [limitPaths, hl]
  have hmap : (process provider hs w a (limitPaths s paths)).map Outcome.path =
      paths.take s.limit := by
    rw [hLP, process_eq provider hs w a _ hw, List.map_map]
    have h : (Outcome.path ∘ fun p : FsPath => Outcome.mk p (provider hs p)) = id := rfl
    rw [h, List.map_id]
  refine ⟨hLP, ?_, hmap, ?_⟩
  · rw [hLP, List.length_take]
  · intro p hp hmem
    rw [hmap] at hmem
    have hsplit := List.take_append_drop s.limit paths
    rw [← hsplit] at hnd
    rcases List.nodup_append.1 hnd with ⟨_, _, hdisj⟩
    exact hdisj hmem hp

/-- Claim C2, witness: limit two over three discovered paths, one worker —
the result set covers exactly the first two paths. -/
theorem limit_truncates_before_dispatch_witness :
    (process failProvider (HashSettings.mk 8 false) 1 (fun i => i)
      (limitPaths (parsedSettings 4 sampleDir argsLimit2) paths3)).map Outcome.path =
      paths3.take (parsedSettings 4 sampleDir argsLimit2).limit :=
  (limit_truncates_before_dispatch (parsedSettings 4 sampleDir argsLimit2) paths3
    failProvider (HashSettings.mk 8 false) 1 (fun i => i)
    (by decide) (by decide) (by decide)).2.2.1

/-- Claim C7: `hash_settings` yields exactly the pair of the parsed hash
size and fast flag, and this one fixed pair is what every image in the run
is hashed with. -/
theorem hash_settings_fixed_per_run {P : Type} (s : ProgramSettings)
    (provider : HashSettings → P → HashResult) (w : Nat) (a : Nat → Nat)
    (paths : List P) (hw : 1 ≤ w) :
    s.hash_settings = HashSettings.mk s.hash_size s.fast ∧
    process provider s.hash_settings w a paths =
      paths.map (fun p => Outcome.mk p (provider (HashSettings.mk s.hash_size s.fast) p)) :=
  ⟨rfl, process_eq provider s.hash_settings w a paths hw⟩

/-- Claim C7, witness: the parsed default settings hash every image with
hash size eight and the accurate mode. -/
theorem hash_settings_fixed_per_run_witness :
    (parsedSettings 4 sampleDir argsDefault).hash_settings = HashSettings.mk 8 false ∧
    process failProvider ((parsedSettings 4 sampleDir argsDefault).hash_settings) 1
        (fun i => i) (["a"] : List String) =
      (["a"] : List String).map
        (fun p => Outcome.mk p (failProvider (HashSettings.mk 8 false) p)) :=
  hash_settings_fixed_per_run (parsedSettings 4 sampleDir argsDefault) failProvider 1
    (fun i => i) ["a"] (by decide)

/-- Hamming distance is symmetric. -/
theorem hamming_comm (a : List Bool) : ∀ b, hamming a b = hamming b a := by
  induction a with
  | nil =>
    intro b
    cases b <;> rfl
  | cons x xs ih =>
    intro b
    cases b with
    | nil => rfl
    | cons y ys =>
      simp only [hamming, ih ys]
      congr 1
      by_cases h : x = y
      · rw [if_pos h, if_pos h.symm]
      · rw [if_neg h, if_neg (fun hc => h hc.symm)]

/-- For equal-width fingerprints the difference fraction is symmetric. -/
theorem diffFrac_comm (a b : List Bool) (h : a.length = b.length) :
    diffFrac a b = diffFrac b a := by
  unfold diffFrac
  rw [hamming_comm, h]

/-- Stable insertion preserves membership. -/
theorem mem_insertOrd {α : Type} (lt : α → α → Bool) (x z : α) :
    ∀ l : List α, z ∈ insertOrd lt x l ↔ z = x ∨ z ∈ l := by
  intro l
  induction l with
  | nil => simp [insertOrd]
  | cons y ys ih =>
    by_cases h : lt x y
    · simp [insertOrd, h]
    · simp only [insertOrd, h, Bool.false_eq_true, if_false, List.mem_cons, ih]
      tauto

/-- Sorting preserves membership. -/
theorem mem_sortOrd {α : Type} (lt : α → α → Bool) (z : α) :
    ∀ l : List α, z ∈ sortOrd lt l ↔ z ∈ l := by
  intro l
  induction l with
  | nil => simp [sortOrd]
  | cons y ys ih => simp [sortOrd, mem_insertOrd, ih]

/-- Characterization of membership in an edge list. -/
theorem mem_edgesFor {P : Type} [DecidableEq P] (thr : ℚ)
    (xs : List (P × List Bool)) (x : P × List Bool) (z : P × ℚ) :
    z ∈ edgesFor thr xs x ↔
      ∃ y, (y ∈ xs ∧ y.1 ≠ x.1 ∧ diffFrac x.2 y.2 ≤ thr) ∧
        (y.1, diffFrac x.2 y.2) = z := by
  unfold edgesFor
  rw [mem_sortOrd]
  simp [List.mem_map, List.mem_filter, and_assoc]

/-- One direction of edge symmetry, applied twice below. -/
theorem edges_mem_flip {P : Type} [DecidableEq P] (thr : ℚ)
    (xs : List (P × List Bool))
    (hw : ∀ x ∈ xs, ∀ y ∈ xs, (x.2 : List Bool).length = y.2.length)
    (hnd : (xs.map Prod.fst).Nodup) (A B : P × List Bool)
    (hA : A ∈ xs) (hB : B ∈ xs) (f : ℚ)
    (h : (B.1, f) ∈ edgesFor thr xs A) : (A.1, f) ∈ edgesFor thr xs B := by
  rcases (mem_edgesFor thr xs A (B.1, f)).1 h with ⟨y, ⟨hy, hne, hle⟩, heq⟩
  obtain ⟨h1, h2⟩ := Prod.mk.inj heq
  have hyB : y = B := List.inj_on_of_nodup_map hnd hy hB h1
  rw [hyB] at hne hle h2
  have hfrac : diffFrac B.2 A.2 = diffFrac A.2 B.2 :=
    diffFrac_comm _ _ (hw B hB A hA)
  refine (mem_edgesFor thr xs B (A.1, f)).2 ⟨A, ⟨hA, ?_, ?_⟩, ?_⟩
  · exact fun hc => hne (by rw [hc])
  · rw [hfrac]
    exact hle
  · rw [hfrac, h2]

/-- Claim C6: among Success outcomes with the run's constant fingerprint
width and distinct paths, A appears in B's similarity edge list if and only
if B appears in A's, with the same recorded difference fraction. -/
theorem similarity_edges_symmetric {P : Type} [DecidableEq P] (thr : ℚ)
    (xs : List (P × List Bool))
    (hw : ∀ x ∈ xs, ∀ y ∈ xs, (x.2 : List Bool).length = y.2.length)
    (hnd : (xs.map Prod.fst).Nodup) (A B : P × List Bool)
    (hA : A ∈ xs) (hB : B ∈ xs) (f : ℚ) :
    (B.1, f) ∈ edgesFor thr xs A ↔ (A.1, f) ∈ edgesFor thr xs B :=
  ⟨edges_mem_flip thr xs hw hnd A B hA hB f,
   edges_mem_flip thr xs hw hnd B A hB hA f⟩

/-- Claim C6, witness: two fingerprints differing in one of two bits, at
threshold one half — each appears in the other's edge list with fraction one
half. -/
theorem similarity_edges_symmetric_witness :
    ((("b" : String), (1 : ℚ) / 2) ∈
      edgesFor ((1 : ℚ) / 2) samplePairs ("a", [true, false])) ↔
    ((("a" : String), (1 : ℚ) / 2) ∈
      edgesFor ((1 : ℚ) / 2) samplePairs ("b", [true, true])) :=
  similarity_edges_symmetric ((1 : ℚ) / 2) samplePairs (by decide) (by decide)
    ("a", [true, false]) ("b", [true, true]) (by decide) (by decide) ((1 : ℚ) / 2)
